import Mathlib

/-!
Verification development for the truth-lens browser extension.

Shallow embedding of the JavaScript source into Lean 4:
pure functions become Lean functions, JavaScript values that matter to the
claims are modelled by the `JSValue` inductive, fallible platform calls
(network fetch, `JSON.parse`, the `URL` parser) are passed in as explicit
parameters or pre-parsed structures, and try/catch blocks become `Option`.
JavaScript strings are UTF-16 code-unit sequences; where only code-unit
counts matter they are modelled as `List Nat`, otherwise as Lean `String`
(treated as a character sequence via `String.data`).
-/

namespace TruthLens

/-- Model of a JavaScript/JSON value, as produced by `JSON.parse` or built by
object literals in the source.  Numbers are modelled as integers: the only
numeric field the embedded code reads (`parsed.score`) goes through JS
`parseInt`, which keeps only an integral leading part. -/
inductive JSValue where
  | vNull
  | vUndefined
  | vBool (b : Bool)
  | vInt (n : Int)
  | vStr (s : String)
  | vArr (elems : List JSValue)
  | vObj (fields : List (String × JSValue))

/-- Truthiness of a JavaScript value (`if (x)`). -/
def jsTruthy : JSValue → Bool
  | .vNull => false
  | .vUndefined => false
  | .vBool b => b
  | .vInt n => n != 0
  | .vStr s => s != ""
  | .vArr _ => true
  | .vObj _ => true

/-- JS whitespace test used for regex `\s` and `String.trim`; covers the ASCII
whitespace characters (the unicode extras never occur in the inputs the claims
are about). -/
def jsIsWs (c : Char) : Bool :=
  c == ' ' || c == '\t' || c == '\n' || c == '\r' || c == '\x0b' || c == '\x0c'

/-- JS `String.prototype.trim`. -/
def jsTrim (s : String) : String :=
  String.mk (((s.data.dropWhile jsIsWs).reverse.dropWhile jsIsWs).reverse)

/-- Test for the two JS values whose property access throws and whose array
stringification is the empty string. -/
def isNullish : JSValue → Bool
  | .vNull => true
  | .vUndefined => true
  | _ => false

mutual

/-- JS ToString on a value, as used by template literals and by `parseInt`'s
argument coercion. -/
def jsToString : JSValue → String
  | .vNull => "null"
  | .vUndefined => "undefined"
  | .vBool b => if b then "true" else "false"
  | .vInt n => toString n
  | .vStr s => s
  | .vObj _ => "[object Object]"
  | .vArr elems => String.intercalate "," (jsToStringArray elems)

/-- Stringification of array elements (`Array.prototype.toString` joins with
commas); null/undefined elements stringify to the empty string. -/
def jsToStringArray : List JSValue → List String
  | [] => []
  | v :: vs => (if isNullish v then "" else jsToString v) :: jsToStringArray vs

end

/-- Property access `obj[k]` for the non-throwing receivers (anything except
null/undefined); missing keys give undefined.  Access on null/undefined throws
in JS and is handled at the call sites. -/
def jsGetField (v : JSValue) (k : String) : JSValue :=
  match v with
  | .vObj fields =>
    match fields.find? (fun p => p.1 == k) with
    | some p => p.2
    | none => .vUndefined
  | _ => .vUndefined

/-- Numeric value of a list of decimal digit characters; `none` when the list
does not start with a digit (JS regex `(\d+)` fails / `parseInt` gives NaN). -/
def leadingDigitsVal (cs : List Char) : Option Nat :=
  let ds := cs.takeWhile Char.isDigit
  if ds.isEmpty then none
  else some (ds.foldl (fun a c => a * 10 + (c.toNat - 48)) 0)

/-- JS `parseInt` on a string (radix 10): skip whitespace, optional sign,
leading decimal digits; `none` models NaN.  The legacy `0x` hex form is not
modelled (it never arises from the JSON-derived inputs of this code). -/
def parseIntStr (cs : List Char) : Option Int :=
  let cs := cs.dropWhile jsIsWs
  match cs with
  | '-' :: rest => (leadingDigitsVal rest).map (fun n => -(n : Int))
  | '+' :: rest => (leadingDigitsVal rest).map (fun n => (n : Int))
  | _ => (leadingDigitsVal cs).map (fun n => (n : Int))

/-- JS `parseInt(value)`: coerce to string, then parse. -/
def jsParseInt (v : JSValue) : Option Int :=
  parseIntStr (jsToString v).data

/-! ## Storage module (js/core/storage.js): cache keys, cache reads, history -/

/-- CACHE_DURATION from the storage module: 24 hours in milliseconds. -/
def CACHE_DURATION : Int := 24 * 60 * 60 * 1000

/-- JS `ToInt32` (the effect of `hash & hash` and of the `<<` operator on its
result): wrap into the signed 32-bit range. -/
def toInt32 (n : Int) : Int := (n + 2 ^ 31) % 2 ^ 32 - 2 ^ 31

/-- One iteration of the `generateCacheKey` loop:
`hash = ((hash << 5) - hash) + char; hash = hash & hash;`.
`hash << 5` first wraps `hash * 32` to 32 bits; the subtraction and the
character addition are exact in doubles; `hash & hash` wraps the total. -/
def hashStep (hash : Int) (c : Nat) : Int :=
  toInt32 (toInt32 (hash * 32) - hash + c)

/-- Embedding of `generateCacheKey` (storage.js).  The content string is a
list of UTF-16 code units; `content.substring(0, 5000)` is `take 5000`. -/
def generateCacheKey (content : List Nat) : String :=
  "fc_" ++ toString ((content.take 5000).foldl hashStep 0)

/-- Entry of the fact-check cache: the saved data plus the write timestamp
added by `saveToCache`. -/
structure CacheItem (α : Type) where
  data : α
  timestamp : Int

/-- Embedding of `getFromCache` (storage.js).  The stored cache object is an
association list from key to entry, `now` is `Date.now()`. -/
def getFromCache {α : Type} (cache : List (String × CacheItem α)) (key : String)
    (now : Int) : Option (CacheItem α) :=
  match (cache.find? (fun p => p.1 == key)).map (fun p => p.2) with
  | some item => if now - item.timestamp < CACHE_DURATION then some item else none
  | none => none

/-- Embedding of `saveHistory` (storage.js): `unshift` the new item, then pop
the last item when the length exceeds 50.  The item payload (its fields and
the added id/timestamp) is abstracted as an arbitrary type. -/
def saveHistory {α : Type} (history : List α) (item : α) : List α :=
  if 50 < (item :: history).length then (item :: history).dropLast
  else item :: history

/-! ## Web search tool (js/tools/web.js) -/

/-- One parsed search result from `parseLiteResults`: title, decoded URL, and
snippet (empty string models a missing snippet, indistinguishable from the
absent field under the code's truthiness checks). -/
structure SearchItem where
  title : String
  url : String
  snippet : String
deriving DecidableEq

/-- Shape of the object `search()` returns.  The wall-clock `timestamp` field
(an ISO string from `new Date()`) is omitted from the model; `resultsCount` is
present only on success, `error` only on failure. -/
structure SearchResponse where
  success : Bool
  query : String
  results : List SearchItem
  resultsCount : Option Nat
  error : Option String

/-- Embedding of `search` (web.js).  The network round-trip plus HTML parsing
(`scrapeDuckDuckGoLite`) is abstracted as `fetchOutcome`: `.ok` carries the
parsed results, `.error` carries the thrown error's message, which `search`
catches.  The query is an arbitrary JS value, as in the source, which rejects
falsy or non-string queries up front. -/
def search (query : JSValue) (fetchOutcome : Except String (List SearchItem)) :
    SearchResponse :=
  match query with
  | .vStr s =>
    if s == "" then
      { success := false, query := "", results := [], resultsCount := none,
        error := some "Invalid search query" }
    else
      let cleanQuery := jsTrim s
      match fetchOutcome with
      | .ok results =>
        { success := true, query := cleanQuery, results := results,
          resultsCount := some results.length, error := none }
      | .error e =>
        { success := false, query := cleanQuery, results := [],
          resultsCount := none, error := some e }
  | _ =>
    { success := false, query := "", results := [], resultsCount := none,
      error := some "Invalid search query" }

/-- One `### i. title / URL / snippet / content` block appended for a browsed
result inside `executeWebSearchTool`'s forEach. -/
def formatDetailedBlock (idx : Nat) (r : SearchItem) (content : String) : String :=
  "### " ++ toString (idx + 1) ++ ". " ++ r.title ++ "\n"
    ++ "**URL:** " ++ r.url ++ "\n"
    ++ (if r.snippet != "" then "**Snippet:** " ++ r.snippet ++ "\n" else "")
    ++ (if content != "" then "**Extracted Content:**\n" ++ content ++ "\n"
        else "(Could not extract content)\n")
    ++ "\n---\n\n"

/-- Embedding of `executeWebSearchTool` (web.js).  `browse` abstracts
`browsePage` (which never throws and returns the extracted text, or an empty
string on any failure); `fetchOutcome` is the search backend's outcome as in
`search`.  Mirrors the source: the top `slice(0, 1)` result is browsed and the
"More results" list is built from `slice(3)`. -/
def executeWebSearchTool (browse : String → String)
    (fetchOutcome : Except String (List SearchItem)) (args : JSValue) : String :=
  let query := jsGetField args "query"
  if !jsTruthy query then "Error: Search query is required"
  else
    let searchResult := search query fetchOutcome
    if !searchResult.success || searchResult.results.isEmpty then
      "No results found for: \"" ++ jsToString query ++ "\""
    else
      let response := "**Web Search Results for \"" ++ jsToString query ++ "\":**\n\n"
      let topResults := searchResult.results.take 1
      let detailedResults := topResults.map (fun r => (r, browse r.url))
      let response := response ++
        String.join (detailedResults.enum.map
          (fun p => formatDetailedBlock p.1 p.2.1 p.2.2))
      let otherResults := searchResult.results.drop 3
      if !otherResults.isEmpty then
        response ++ "**More results:**\n" ++
          String.join (otherResults.map
            (fun r => "- [" ++ r.title ++ "](" ++ r.url ++ ")\n"))
      else response

/-- Containment of `pat` as a contiguous run inside a character list. -/
def listHasRun (pat : List Char) : List Char → Bool
  | [] => pat.isEmpty
  | c :: rest => pat.isPrefixOf (c :: rest) || listHasRun pat rest

/-- Substring containment test (JS `String.prototype.includes`). -/
def strContains (s pat : String) : Bool :=
  listHasRun pat.data s.data

/-- Sample search results used to exercise `executeWebSearchTool` on a
two-result search. -/
def sampleResultA : SearchItem :=
  { title := "Alpha Source", url := "https://alpha.example/a", snippet := "alpha snippet" }

/-- Second sample search result; `executeWebSearchTool` drops it from its
formatted output. -/
def sampleResultB : SearchItem :=
  { title := "Beta Source", url := "https://beta.example/b", snippet := "beta snippet" }

/-! ## Response parser (js/core/llm.js, `LLMService.parseResponse`) -/

/-- Structured fact-check report returned by the parser and by the streaming
loop's degraded fallbacks.  `score` is the only numeric field; the other
payload fields hold whatever JS value the code put there; `raw` is the
original model text. -/
structure AnalysisReport where
  score : Int
  verdict : JSValue
  summary : JSValue
  claims : JSValue
  context : JSValue
  sources : JSValue
  bias : JSValue
  raw : String

/-- Case-insensitive literal match of `lit` against a prefix of `cs`,
returning the remainder on success (regex literal matching under the `i`
flag). -/
def matchCI (lit : List Char) (cs : List Char) : Option (List Char) :=
  match lit, cs with
  | [], rest => some rest
  | _ :: _, [] => none
  | l :: ls, c :: rest => if l.toLower == c.toLower then matchCI ls rest else none

/-- Scan for the regex `lit` followed by `\s*(\d+)` (case-insensitive), as in
the fallback score extraction; returns the captured digit run's value at the
first position where the whole pattern matches. -/
def scanLitDigits (lit : List Char) : List Char → Option Nat
  | [] => none
  | c :: rest =>
    match matchCI lit (c :: rest) with
    | some rem =>
      match leadingDigitsVal (rem.dropWhile jsIsWs) with
      | some n => some n
      | none => scanLitDigits lit rest
    | none => scanLitDigits lit rest

/-- Fallback `score` recovery: `content.match(/SCORE:\s*(\d+)/i) ||
content.match(/"score":\s*(\d+)/i)`, then `parseInt` of the capture. -/
def scanScore (content : String) : Option Nat :=
  match scanLitDigits "SCORE:".data content.data with
  | some n => some n
  | none => scanLitDigits "\"score\":".data content.data

/-- Split `cs` at the first occurrence of the contiguous pattern `pat`,
returning the part before it and the part after it. -/
def breakOnRun (pat : List Char) : List Char → Option (List Char × List Char)
  | [] => if pat.isEmpty then some ([], []) else none
  | c :: rest =>
    if pat.isPrefixOf (c :: rest) then some ([], (c :: rest).drop pat.length)
    else
      match breakOnRun pat rest with
      | some p => some (c :: p.1, p.2)
      | none => none

/-- Capture of the regex match `content.match(/(three backticks)(?:json)?\s*([\s\S]*?)(three backticks)/)`:
find the first fence, optionally consume a literal `json`, skip whitespace,
and capture lazily up to the next fence; `none` when no closing fence
exists. -/
def extractCodeBlock (content : String) : Option String :=
  match breakOnRun "```".data content.data with
  | none => none
  | some p =>
    let afterLang := if "json".data.isPrefixOf p.2 then p.2.drop 4 else p.2
    let afterWs := afterLang.dropWhile jsIsWs
    match breakOnRun "```".data afterWs with
    | none => none
    | some q => some (String.mk q.1)

/-- Consumption of the optional `\/?` right after a tag's opening `<`. -/
def stripSlash : List Char → List Char
  | [] => []
  | c :: r => if c == '/' then r else c :: r

theorem stripSlash_length (cs : List Char) : (stripSlash cs).length ≤ cs.length := by
  cases cs with
  | nil => simp [stripSlash]
  | cons c r =>
    simp only [stripSlash]
    split <;> simp

/-- Consumption of one `<\/?tool_call[^>]*>` tag right after its opening `<`:
optional slash, the literal tag name, any run of non-`>` characters, and the
closing `>`; returns the remainder after the tag. -/
def tagRemainder (cs : List Char) : Option (List Char) :=
  if "tool_call".data.isPrefixOf (stripSlash cs) then
    match ((stripSlash cs).drop 9).dropWhile (fun c => c != '>') with
    | '>' :: r => some r
    | _ => none
  else none

theorem tagRemainder_length {cs r : List Char} (h : tagRemainder cs = some r) :
    r.length ≤ cs.length := by
  unfold tagRemainder at h
  split at h
  · split at h
    case _ r' heq =>
      cases h
      have h3 := (List.dropWhile_sublist (l := (stripSlash cs).drop 9)
        (p := fun c => c != '>')).length_le
      have h1 := stripSlash_length cs
      rw [heq] at h3
      simp only [List.length_cons, List.length_drop] at h3
      omega
    case _ => cases h
  · cases h

/-- Worker for the global tag removal, structurally recursive on a fuel that
stays at least the list's length: by `tagRemainder_length` a consumed tag's
remainder is no longer than the rest of the input, so the fuel never runs out
and the zero-fuel fallback is unreachable. -/
def removeToolCallTagsAux : Nat → List Char → List Char
  | _, [] => []
  | 0, l => l
  | fuel + 1, c :: rest =>
    if c == '<' then
      match tagRemainder rest with
      | some rem => removeToolCallTagsAux fuel rem
      | none => c :: removeToolCallTagsAux fuel rest
    else c :: removeToolCallTagsAux fuel rest

/-- Global removal `jsonStr.replace(/<\/?tool_call[^>]*>/g, '')`: at each
`<` try to consume one tag; on failure keep the character and continue
scanning one position further, as the regex engine does. -/
def removeToolCallTags (cs : List Char) : List Char :=
  removeToolCallTagsAux cs.length cs

/-- Index of the last occurrence of `c` (JS `lastIndexOf`). -/
def lastIdxOf (cs : List Char) (c : Char) : Option Nat :=
  match cs.reverse.findIdx? (fun a => a == c) with
  | some k => some (cs.length - 1 - k)
  | none => none

/-- Construction of the report object on the successful JSON-parse path:
`score` is `parseInt`ed then clamped into [0,100] (`|| 0` turns NaN into 0),
every other field defaults when falsy, `raw` keeps the input text. -/
def buildReport (parsed : JSValue) (content : String) : AnalysisReport :=
  let dflt := fun (v dv : JSValue) => if jsTruthy v then v else dv
  { score := min 100 (max 0 ((jsParseInt (jsGetField parsed "score")).getD 0)),
    verdict := dflt (jsGetField parsed "verdict") (.vStr "UNKNOWN"),
    summary := dflt (jsGetField parsed "summary") (.vStr ""),
    claims := dflt (jsGetField parsed "claims") (.vArr []),
    context := dflt (jsGetField parsed "context") (.vStr ""),
    sources := dflt (jsGetField parsed "sources") (.vStr ""),
    bias := dflt (jsGetField parsed "bias") (.vStr ""),
    raw := content }

/-- Report built by the catch block of `parseResponse`: regex-recovered score
(defaulting to 50), `UNKNOWN` verdict, truncated summary, original `raw`. -/
def fallbackReport (content : String) : AnalysisReport :=
  { score := match scanScore content with
      | some n => (n : Int)
      | none => 50,
    verdict := .vStr "UNKNOWN",
    summary := .vStr (String.mk (content.data.take 500)),
    claims := .vArr [],
    context := .vStr "",
    sources := .vStr "",
    bias := .vStr "",
    raw := content }

/-- First two steps of the try block: the code-fence capture (trimmed) when a
fence is present, else the whole content, with tool-call tags removed. -/
def cleanedJson (content : String) : List Char :=
  removeToolCallTags
    (match extractCodeBlock content with
      | some inner => jsTrim inner
      | none => content).data

/-- Try block of `parseResponse` (streaming-service variant, llm.js): code
fence extraction, tool-call tag removal, outermost-brace slicing (throwing
when no brace span is found), `JSON.parse` (abstracted as the `jsonParse`
parameter, `none` modelling a parse exception), and the field accesses on the
parsed value (which throw when it is null).  `none` models any throw, which
the catch turns into `fallbackReport`. -/
def parseResponseTry (jsonParse : String → Option JSValue) (content : String) :
    Option AnalysisReport :=
  match (cleanedJson content).findIdx? (fun a => a == '\x7b'),
      lastIdxOf (cleanedJson content) '\x7d' with
  | some s, some e =>
    if s < e then
      match jsonParse
          (String.mk (((cleanedJson content).drop s).take (e + 1 - s))) with
      | some parsed =>
        if isNullish parsed then none
        else some (buildReport parsed content)
      | none => none
    else none
  | _, _ => none

/-- Embedding of `parseResponse` (llm.js): the try block result, or the catch
block's fallback report.  Total by construction, mirroring that the JS
function never throws. -/
def parseResponse (jsonParse : String → Option JSValue) (content : String) :
    AnalysisReport :=
  match parseResponseTry jsonParse content with
  | some r => r
  | none => fallbackReport content

/-! ## Streamed tool-call merging (llm.js, `analyzeTextStream` and
`continueWithToolResults` delta loops) -/

/-- The `function` part of one streamed tool-call delta: each fragment may
carry a piece of the name and/or of the arguments. -/
structure ToolFunctionDelta where
  name : Option String
  arguments : Option String

/-- One streamed tool-call delta (`delta.tool_calls[j]`): an optional
positional index, an optional id, and optional function fragments. -/
structure ToolCallDelta where
  index : Option Nat
  id : Option String
  function : Option ToolFunctionDelta

/-- Accumulated `function` part of a working tool-call entry. -/
structure ToolFunctionState where
  name : String
  arguments : String

/-- One entry of the working tool-call list:
`\x7b id: '', type: 'function', function: \x7b name: '', arguments: '' \x7d \x7d`. -/
structure ToolCallState where
  id : String
  type : String
  function : ToolFunctionState

/-- Fresh entry created when a delta's index is first seen. -/
def emptyToolCallState : ToolCallState :=
  { id := "", type := "function", function := { name := "", arguments := "" } }

/-- Update step `if (tc.id) entry.id = tc.id;` — an id fragment overwrites
when truthy. -/
def updateIdField (tc : ToolCallDelta) (cur : ToolCallState) : ToolCallState :=
  match tc.id with
  | some s => if s != "" then { cur with id := s } else cur
  | none => cur

/-- Update step for a truthy `tc.function?.name` fragment.  The two stream
loops differ exactly here — `analyzeTextStream` line 185 appends
(`name += fragment`) while `continueWithToolResults` line 387 overwrites
(`name = fragment`) — so the merge of the fragment into the accumulated name
is a parameter. -/
def updateNameField (nameMerge : String → String → String) (tc : ToolCallDelta)
    (cur : ToolCallState) : ToolCallState :=
  match tc.function.bind (fun f => f.name) with
  | some n =>
    if n != "" then
      { cur with function := { cur.function with
          name := nameMerge cur.function.name n } }
    else cur
  | none => cur

/-- Update step `if (tc.function?.arguments) entry.function.arguments += ...` —
argument fragments always concatenate, in both stream loops. -/
def updateArgsField (tc : ToolCallDelta) (cur : ToolCallState) : ToolCallState :=
  match tc.function.bind (fun f => f.arguments) with
  | some a =>
    if a != "" then
      { cur with function := { cur.function with
          arguments := cur.function.arguments ++ a } }
    else cur
  | none => cur

/-- Application of one tool-call delta to the working list (a sparse JS array,
modelled as a partial map from index to entry): deltas without an index are
ignored; otherwise the entry at the index is created if absent and its id,
name, and arguments fragments are applied in the source's order. -/
def applyToolCallDelta (nameMerge : String → String → String)
    (calls : Nat → Option ToolCallState) (tc : ToolCallDelta) :
    Nat → Option ToolCallState :=
  match tc.index with
  | none => calls
  | some i =>
    let cur := updateArgsField tc (updateNameField nameMerge tc
      (updateIdField tc ((calls i).getD emptyToolCallState)))
    fun j => if j = i then some cur else calls j

/-- Merging loop of the initial stream (`analyzeTextStream`): name fragments
are appended. -/
def mergeToolCallsStream (deltas : List ToolCallDelta) : Nat → Option ToolCallState :=
  deltas.foldl (applyToolCallDelta (fun old frag => old ++ frag)) (fun _ => none)

/-- Merging loop of every continuation stream (`continueWithToolResults`):
name fragments overwrite. -/
def mergeToolCallsCont (deltas : List ToolCallDelta) : Nat → Option ToolCallState :=
  deltas.foldl (applyToolCallDelta (fun _ frag => frag)) (fun _ => none)

/-- Delta sequence of the spec's tool-call merging example: name fragments
`web_` then `search`, then two argument fragments that concatenate to the
JSON text for the query object. -/
def exampleDeltas : List ToolCallDelta :=
  [ { index := some 0, id := some "call_1",
      function := some { name := some "web_", arguments := none } },
    { index := some 0, id := none,
      function := some { name := some "search", arguments := none } },
    { index := some 0, id := none,
      function := some { name := none, arguments := some "\x7b\"qu" } },
    { index := some 0, id := none,
      function := some { name := none, arguments := some "ery\":\"x\"\x7d" } } ]

/-- Projection forgetting the accumulated name, used to state that the two
merge loops agree on everything except the name field. -/
def eraseName (c : ToolCallState) : ToolCallState :=
  { c with function := { c.function with name := "" } }

/-! ## Continuation loop (llm.js, `continueWithToolResults`) -/

/-- One message of the chat history.  `tool_calls` is empty for messages that
do not carry the field; `toolCallId` models `tool_call_id`. -/
structure ChatMessage where
  role : String
  content : Option String
  tool_calls : List ToolCallState
  toolCallId : Option String

/-- Assistant message carrying the tool calls:
`\x7b role: "assistant", content: null, tool_calls \x7d`. -/
def assistantToolCallMsg (tcs : List ToolCallState) : ChatMessage :=
  { role := "assistant", content := none, tool_calls := tcs, toolCallId := none }

/-- Tool-result message pushed for one executed call:
`\x7b tool_call_id, role: 'tool', content \x7d`. -/
def toolResultMsg (id : String) (content : String) : ChatMessage :=
  { role := "tool", content := some content, tool_calls := [], toolCallId := some id }

/-- Tool-result construction loop shared by `analyzeTextStream` and
`continueWithToolResults`: each call named `web_search` contributes exactly
one tool message, in the calls' order; `execTool` abstracts the body of the
per-call try/catch (the formatted `executeWebSearchTool` output, or the
JSON-encoded error message on argument-parse or execution failure — either
way a single string). -/
def mkToolResults (execTool : ToolCallState → String) (tcs : List ToolCallState) :
    List ChatMessage :=
  tcs.filterMap (fun tc =>
    if tc.function.name == "web_search" then
      some (toolResultMsg tc.id (execTool tc))
    else none)

/-- Decoded outcome of one continuation round's response stream: the
accumulated content and the merged new tool calls (the merging itself is
modelled by `mergeToolCallsCont`; here the already-merged dense list is
supplied by the round oracle). -/
structure ContOutcome where
  fullContent : String
  newToolCalls : List ToolCallState

/-- MAX_TOOL_DEPTH from `continueWithToolResults`. -/
def MAX_TOOL_DEPTH : Nat := 100

/-- Degraded report returned when the recursion depth cap is reached. -/
def degradedReport : AnalysisReport :=
  { score := 50,
    verdict := .vStr "UNVERIFIABLE",
    summary := .vStr "Analysis could not be completed - too many search iterations required.",
    claims := .vArr [],
    context := .vStr "",
    sources := .vStr "",
    bias := .vStr "",
    raw := "" }

/-- Embedding of `continueWithToolResults` (llm.js).  Besides the report it
returns the list of message histories POSTed by this round and all deeper
rounds, in order.  `oracle` gives each round's streamed outcome, `execTool`
the tool execution as in `mkToolResults`, `sysMsg`/`userMsg` the system and
user prompt messages built on the first continuation.  The depth cap returns
the degraded report before any POST; otherwise the round builds its message
history (appending the assistant tool-call message and the tool results to
the accumulated history), POSTs it, and either recurses on fresh tool calls
or hands the accumulated content to `parseResponse`. -/
def continueWithToolResults (jsonParse : String → Option JSValue)
    (oracle : Nat → ContOutcome) (execTool : ToolCallState → String)
    (sysMsg userMsg : ChatMessage)
    (toolCalls : List ToolCallState) (toolResults : List ChatMessage)
    (depth : Nat) (existingMessages : Option (List ChatMessage)) :
    AnalysisReport × List (List ChatMessage) :=
  if MAX_TOOL_DEPTH ≤ depth then (degradedReport, [])
  else
    let messages := match existingMessages with
      | some ex => ex ++ assistantToolCallMsg toolCalls :: toolResults
      | none => sysMsg :: userMsg :: assistantToolCallMsg toolCalls :: toolResults
    let outcome := oracle depth
    let newToolCalls := outcome.newToolCalls
    if !newToolCalls.isEmpty && newToolCalls.any (fun tc => tc.function.name != "") then
      let newToolResults := mkToolResults execTool newToolCalls
      if !newToolResults.isEmpty then
        let deeper := continueWithToolResults jsonParse oracle execTool sysMsg userMsg
          newToolCalls newToolResults (depth + 1) (some messages)
        (deeper.1, messages :: deeper.2)
      else (parseResponse jsonParse outcome.fullContent, [messages])
    else (parseResponse jsonParse outcome.fullContent, [messages])
termination_by MAX_TOOL_DEPTH - depth
decreasing_by
  simp only [MAX_TOOL_DEPTH] at *
  omega

/-! ## URL normalization and history lookup (js/core/storage.js,
`normalizeUrl` and `getUrlResult`) -/

/-- Components of a parsed URL as produced by the platform's `new URL(...)`:
hostname, pathname, decoded query parameters in order, and origin.  A URL
string that fails to parse is represented by `Option.none` at the call
sites (the `catch` in `normalizeUrl` returning null). -/
structure URLParts where
  hostname : String
  pathname : String
  searchParams : List (String × String)
  origin : String

/-- JS `searchParams.has(k)`. -/
def hasParam (u : URLParts) (k : String) : Bool :=
  u.searchParams.any (fun p => p.1 == k)

/-- JS `searchParams.get(k)`: first value, or null. -/
def getParam (u : URLParts) (k : String) : Option String :=
  (u.searchParams.find? (fun p => p.1 == k)).map (fun p => p.2)

/-- JS `String.prototype.split(sep)` on character lists: `[[]]` for the empty
string, separators delimit (possibly empty) groups. -/
def splitCharList (c : Char) : List Char → List (List Char)
  | [] => [[]]
  | a :: as =>
    if a == c then [] :: splitCharList c as
    else
      match splitCharList c as with
      | [] => [[a]]
      | g :: gs => (a :: g) :: gs

/-- JS `pathname.split('/')`. -/
def jsSplit (c : Char) (s : String) : List String :=
  (splitCharList c s.data).map String.mk

/-- JS `String.prototype.startsWith`. -/
def jsStartsWith (s pat : String) : Bool :=
  pat.data.isPrefixOf s.data

/-- JS `String.prototype.slice(1)`. -/
def jsSliceOne (s : String) : String :=
  String.mk (s.data.drop 1)

/-- Truthiness of a possibly-null JS string (`if (videoId)`). -/
def truthyStr : Option String → Bool
  | some s => s != ""
  | none => false

/-- Embedding of `normalizeUrl` (storage.js, history variant): on a YouTube
host, extract a video id from the `v` query parameter, an `/embed/` or `/v/`
path, or a `youtu.be` path, and canonicalize to the watch URL when the id is
truthy; otherwise (and for all other hosts) keep origin plus pathname,
stripping query and fragment. -/
def normalizeUrl (u : URLParts) : String :=
  if strContains u.hostname "youtube.com" || strContains u.hostname "youtu.be" then
    let videoId : Option String :=
      if hasParam u "v" then getParam u "v"
      else if jsStartsWith u.pathname "/embed/" then (jsSplit '/' u.pathname).get? 2
      else if jsStartsWith u.pathname "/v/" then (jsSplit '/' u.pathname).get? 2
      else if u.hostname == "youtu.be" then some (jsSliceOne u.pathname)
      else none
    if truthyStr videoId then
      "https://www.youtube.com/watch?v=" ++ videoId.getD ""
    else u.origin ++ u.pathname
  else u.origin ++ u.pathname

/-- One stored history item as read by `getUrlResult`: the saved page URL in
parsed form (`none` models a missing `url` field or one the URL parser
rejects — both make the item unmatched) plus the payload fields the lookup
copies out. -/
structure HistoryEntry where
  url : Option URLParts
  score : Int
  report : JSValue
  content : String
  promptText : Option String
  isYouTube : Bool
  source : String
  timestamp : Int

/-- Result object `getUrlResult` reconstructs from a matching history item;
`prompt` defaults to the empty string when the stored field is falsy. -/
structure RestoredResult where
  score : Int
  report : JSValue
  content : String
  prompt : String
  isYouTube : Bool
  source : String
  timestamp : Int

/-- Embedding of `getUrlResult` (storage.js, history variant): normalize the
target URL, find the most recent history item whose normalized URL matches,
and reconstruct the saved result. -/
def getUrlResult (history : List HistoryEntry) (url : Option URLParts) :
    Option RestoredResult :=
  match url.map normalizeUrl with
  | none => none
  | some target =>
    match history.find? (fun item =>
      match item.url with
      | none => false
      | some p => normalizeUrl p == target) with
    | some m =>
      some { score := m.score, report := m.report, content := m.content,
             prompt := m.promptText.getD "", isYouTube := m.isYouTube,
             source := m.source, timestamp := m.timestamp }
    | none => none

/-- URL components of `https://www.youtube.com/watch?v=VID` as parsed by the
platform. -/
def watchUrl (v : String) : URLParts :=
  { hostname := "www.youtube.com", pathname := "/watch",
    searchParams := [("v", v)], origin := "https://www.youtube.com" }

/-- URL components of `https://youtu.be/VID`. -/
def shortUrl (v : String) : URLParts :=
  { hostname := "youtu.be", pathname := "/" ++ v,
    searchParams := [], origin := "https://youtu.be" }

/-- URL components of `https://www.youtube.com/embed/VID`. -/
def embedUrl (v : String) : URLParts :=
  { hostname := "www.youtube.com", pathname := "/embed/" ++ v,
    searchParams := [], origin := "https://www.youtube.com" }

/-- URL components of `https://www.youtube.com/v/VID`. -/
def vPathUrl (v : String) : URLParts :=
  { hostname := "www.youtube.com", pathname := "/v/" ++ v,
    searchParams := [], origin := "https://www.youtube.com" }

/-! ## Theorems -/

theorem parseResponseTry_some {jsonParse : String → Option JSValue} {content : String}
    {r : AnalysisReport} (h : parseResponseTry jsonParse content = some r) :
    ∃ p, r = buildReport p content := by
  unfold parseResponseTry at h
  split at h
  case h_1 =>
    split at h
    · split at h
      case h_1 parsed heq =>
        split at h
        · cases h
        · exact ⟨parsed, (Option.some.inj h).symm⟩
      case h_2 => cases h
    · cases h
  case h_2 => cases h

/-- C8: for every input string and every behavior of `JSON.parse`, the report
returned by `parseResponse` has its `raw` field equal to the exact original
input text, on both the successful JSON-parse path and the fallback path. -/
theorem parseResponse_raw_preserved :
    ∀ (jsonParse : String → Option JSValue) (content : String),
      (parseResponse jsonParse content).raw = content := by
  intro jp c
  cases h : parseResponseTry jp c with
  | some r =>
    obtain ⟨p, rfl⟩ := parseResponseTry_some h
    unfold parseResponse
    rw [h]
    rfl
  | none =>
    unfold parseResponse
    rw [h]
    rfl

/-- C2 (amended): `parseResponse` never throws (it is a total function into
reports); on the successful JSON-parse path the returned `score` is an
integer clamped into [0,100]; on the fallback path the score is always
nonnegative (the regex-captured digits, or the default 50), but it is not
clamped from above and can exceed 100. -/
theorem parseResponse_score_bounds :
    ∀ (jsonParse : String → Option JSValue) (content : String),
      (∀ r, parseResponseTry jsonParse content = some r → 0 ≤ r.score ∧ r.score ≤ 100)
      ∧ 0 ≤ (parseResponse jsonParse content).score := by
  intro jp c
  have hb : ∀ p, 0 ≤ (buildReport p c).score ∧ (buildReport p c).score ≤ 100 := by
    intro p
    unfold buildReport
    exact ⟨le_min (by norm_num) (le_max_left 0 _), min_le_left _ _⟩
  constructor
  · intro r h
    obtain ⟨p, rfl⟩ := parseResponseTry_some h
    exact hb p
  · cases h : parseResponseTry jp c with
    | some r =>
      have hr := parseResponseTry_some h
      obtain ⟨p, hp⟩ := hr
      unfold parseResponse
      rw [h, hp]
      exact (hb p).1
    | none =>
      unfold parseResponse
      rw [h]
      unfold fallbackReport
      cases hs : scanScore c with
      | some n => simp [hs]
      | none => simp [hs]

theorem parseResponse_score_bounds_witness :
    0 ≤ (buildReport (JSValue.vObj [("score", JSValue.vInt 250)]) "\x7b\x7d").score
    ∧ (buildReport (JSValue.vObj [("score", JSValue.vInt 250)]) "\x7b\x7d").score ≤ 100 :=
  (parseResponse_score_bounds (fun _ => some (JSValue.vObj [("score", JSValue.vInt 250)]))
      "\x7b\x7d").1
    (buildReport (JSValue.vObj [("score", JSValue.vInt 250)]) "\x7b\x7d") rfl

/-- C2 counterexample: the claim that the score is in [0,100] on the fallback
path fails — for the input `SCORE: 500` (which has no JSON object, so the
parser falls back to the regex scan) the returned score is 500. -/
theorem parseResponse_fallback_score_unbounded :
    100 < (parseResponse (fun _ => none) "SCORE: 500").score := by decide

/-- C6: for every query value (null, non-string, empty, or any string) and
every fetch outcome (results, zero results, or a thrown error), `search`
returns a structured response — `error` is present exactly on failure, and a
failed search carries an empty results array.  Totality of the embedding
mirrors that the JS function never throws. -/
theorem search_structured_result :
    ∀ (query : JSValue) (fetchOutcome : Except String (List SearchItem)),
      ((search query fetchOutcome).error.isSome = !(search query fetchOutcome).success)
      ∧ ((search query fetchOutcome).success = false →
          (search query fetchOutcome).results = []) := by
  intro q f
  unfold search
  cases q <;> try simp
  case vStr s =>
    split
    · simp
    · cases f <;> simp

theorem search_structured_result_witness :
    (search JSValue.vNull (Except.error "HTTP 500: fail")).error.isSome
      = !(search JSValue.vNull (Except.error "HTTP 500: fail")).success
    ∧ (search JSValue.vNull (Except.error "HTTP 500: fail")).results = [] :=
  ⟨(search_structured_result JSValue.vNull (Except.error "HTTP 500: fail")).1,
   (search_structured_result JSValue.vNull (Except.error "HTTP 500: fail")).2 (by decide)⟩

/-- C5 (code bug evidence): on a successful search with two results, the
formatted output of `executeWebSearchTool` contains the browsed top result
but omits the second result entirely — its title and URL appear nowhere in
the output, because the code browses `slice(0, 1)` yet builds the
"More results" list from `slice(3)`, dropping results 1 and 2. -/
theorem executeWebSearchTool_omits_results :
    (search (JSValue.vStr "test") (Except.ok [sampleResultA, sampleResultB])).success = true
    ∧ (search (JSValue.vStr "test") (Except.ok [sampleResultA, sampleResultB])).results.length = 2
    ∧ sampleResultB ∈ (search (JSValue.vStr "test")
        (Except.ok [sampleResultA, sampleResultB])).results
    ∧ strContains (executeWebSearchTool (fun _ => "page text")
        (Except.ok [sampleResultA, sampleResultB])
        (JSValue.vObj [("query", JSValue.vStr "test")])) sampleResultA.title = true
    ∧ strContains (executeWebSearchTool (fun _ => "page text")
        (Except.ok [sampleResultA, sampleResultB])
        (JSValue.vObj [("query", JSValue.vStr "test")])) sampleResultB.title = false
    ∧ strContains (executeWebSearchTool (fun _ => "page text")
        (Except.ok [sampleResultA, sampleResultB])
        (JSValue.vObj [("query", JSValue.vStr "test")])) sampleResultB.url = false := by
  decide

/-- C7: the history store is a bounded most-recent-first sequence — any
sequence of `saveHistory` calls starting from a store of at most 50 items
leaves at most 50 items, and saving onto a full 50-item store places the new
item first, evicts exactly the oldest (last) item, and preserves the relative
order of the survivors. -/
theorem saveHistory_bound_and_eviction :
    ∀ {α : Type},
      (∀ (items : List α) (start : List α), start.length ≤ 50 →
        (items.foldl saveHistory start).length ≤ 50)
      ∧ (∀ (h : List α) (x : α), h.length = 50 → saveHistory h x = x :: h.dropLast) := by
  intro α
  have hstep : ∀ (start : List α) (x : α), start.length ≤ 50 →
      (saveHistory start x).length ≤ 50 := by
    intro start x h
    unfold saveHistory
    split
    · simp only [List.length_dropLast, List.length_cons]
      omega
    case isFalse hc =>
      simp only [List.length_cons] at hc ⊢
      omega
  constructor
  · intro items
    induction items with
    | nil => intro start h; simpa using h
    | cons x xs ih =>
      intro start h
      rw [List.foldl_cons]
      exact ih _ (hstep start x h)
  · intro h x hlen
    unfold saveHistory
    rw [if_pos (by simp [hlen])]
    cases h with
    | nil => simp at hlen
    | cons y t => rfl

theorem saveHistory_bound_and_eviction_witness :
    ((List.range 51).foldl saveHistory ([] : List Nat)).length ≤ 50
    ∧ saveHistory (List.range 50) 999 = 999 :: (List.range 50).dropLast :=
  ⟨saveHistory_bound_and_eviction.1 (List.range 51) [] (by simp),
   saveHistory_bound_and_eviction.2 (List.range 50) 999 (by simp)⟩

/-- C10: `generateCacheKey` is a deterministic function of only the first
5000 code units of its input — any two texts agreeing on that prefix get
equal cache keys, so any cache lookup (at any time, against any stored
cache) returns the same entry for both. -/
theorem generateCacheKey_prefix_determined :
    ∀ (t1 t2 : List Nat), t1.take 5000 = t2.take 5000 →
      generateCacheKey t1 = generateCacheKey t2
      ∧ ∀ {α : Type} (cache : List (String × CacheItem α)) (now : Int),
          getFromCache cache (generateCacheKey t1) now
            = getFromCache cache (generateCacheKey t2) now := by
  intro t1 t2 h
  have hk : generateCacheKey t1 = generateCacheKey t2 := by
    unfold generateCacheKey
    rw [h]
  exact ⟨hk, fun cache now => by rw [hk]⟩

theorem generateCacheKey_prefix_determined_witness :
    generateCacheKey (List.replicate 5000 72 ++ [1])
      = generateCacheKey (List.replicate 5000 72 ++ [2])
    ∧ getFromCache [] (generateCacheKey (List.replicate 5000 72 ++ [1])) 0
      = getFromCache ([] : List (String × CacheItem Nat))
          (generateCacheKey (List.replicate 5000 72 ++ [2])) 0 := by
  have h : (List.replicate 5000 72 ++ [1]).take 5000
      = (List.replicate 5000 72 ++ [2]).take 5000 := by
    rw [List.take_left' (List.length_replicate 5000 72),
      List.take_left' (List.length_replicate 5000 72)]
  exact ⟨(generateCacheKey_prefix_determined _ _ h).1,
    (generateCacheKey_prefix_determined _ _ h).2 [] 0⟩

theorem eraseName_updateIdField (tc : ToolCallDelta) (c : ToolCallState) :
    eraseName (updateIdField tc c) = updateIdField tc (eraseName c) := by
  unfold updateIdField
  cases tc.id with
  | none => rfl
  | some s =>
    rcases eq_or_ne s "" with h | h <;> simp [h, eraseName]

theorem eraseName_updateNameField (nm : String → String → String)
    (tc : ToolCallDelta) (c : ToolCallState) :
    eraseName (updateNameField nm tc c) = eraseName c := by
  unfold updateNameField
  cases tc.function.bind (fun f => f.name) with
  | none => rfl
  | some n =>
    rcases eq_or_ne n "" with h | h <;> simp [h, eraseName]

theorem eraseName_updateArgsField (tc : ToolCallDelta) (c : ToolCallState) :
    eraseName (updateArgsField tc c) = updateArgsField tc (eraseName c) := by
  unfold updateArgsField
  cases tc.function.bind (fun f => f.arguments) with
  | none => rfl
  | some a =>
    rcases eq_or_ne a "" with h | h <;> simp [h, eraseName]

theorem eraseName_applyToolCallDelta (nm1 nm2 : String → String → String)
    (s1 s2 : Nat → Option ToolCallState) (tc : ToolCallDelta)
    (hR : ∀ i, (s1 i).map eraseName = (s2 i).map eraseName) :
    ∀ i, (applyToolCallDelta nm1 s1 tc i).map eraseName
        = (applyToolCallDelta nm2 s2 tc i).map eraseName := by
  intro i
  unfold applyToolCallDelta
  cases htc : tc.index with
  | none => exact hR i
  | some j =>
    by_cases hij : i = j
    · subst hij
      have h0 : eraseName ((s1 i).getD emptyToolCallState)
          = eraseName ((s2 i).getD emptyToolCallState) := by
        have h := hR i
        cases hs1 : s1 i <;> cases hs2 : s2 i <;> rw [hs1, hs2] at h <;> simp_all
      simp only [ite_true, Option.map_some']
      rw [eraseName_updateArgsField, eraseName_updateArgsField,
        eraseName_updateNameField, eraseName_updateNameField,
        eraseName_updateIdField, eraseName_updateIdField, h0]
    · simp only []
      rw [if_neg hij, if_neg hij]
      exact hR i

theorem eraseName_mergeFold (nm1 nm2 : String → String → String) :
    ∀ (deltas : List ToolCallDelta) (s1 s2 : Nat → Option ToolCallState),
      (∀ i, (s1 i).map eraseName = (s2 i).map eraseName) →
      ∀ i, ((deltas.foldl (applyToolCallDelta nm1) s1) i).map eraseName
          = ((deltas.foldl (applyToolCallDelta nm2) s2) i).map eraseName := by
  intro deltas
  induction deltas with
  | nil => intro s1 s2 h i; exact h i
  | cons d ds ih =>
    intro s1 s2 h i
    rw [List.foldl_cons, List.foldl_cons]
    exact ih _ _ (eraseName_applyToolCallDelta nm1 nm2 s1 s2 d h) i

/-- C1 (amended): every indexed fragment is merged into the working entry at
its index, and the two merging loops agree on everything except the name —
the id, type, and arguments of every merged entry are identical between the
initial stream and continuation streams (arguments always concatenate in
arrival order, as the spec's example computes to the exact JSON text in both
loops) — but the name rule is not the same in both: the initial stream
appends name fragments while continuation streams overwrite them. -/
theorem toolCallMerge_uniform_except_name :
    (∀ (deltas : List ToolCallDelta) (i : Nat),
        (mergeToolCallsStream deltas i).map eraseName
          = (mergeToolCallsCont deltas i).map eraseName)
    ∧ (mergeToolCallsStream exampleDeltas 0).map (fun c => c.function.arguments)
        = some "\x7b\"query\":\"x\"\x7d"
    ∧ (mergeToolCallsCont exampleDeltas 0).map (fun c => c.function.arguments)
        = some "\x7b\"query\":\"x\"\x7d" := by
  refine ⟨fun deltas i => ?_, by decide, by decide⟩
  exact eraseName_mergeFold _ _ deltas _ _ (fun _ => rfl) i

/-- C1 counterexample: the claim that the merging rule is the same in the
initial stream and in continuation streams is false — for the spec's own
example fragments (name `web_` then `search` at index 0), the initial-stream
loop merges the name to `web_search` while the continuation loop merges it to
`search`, so the two loops produce different calls from identical chunks. -/
theorem toolCallMerge_name_rule_differs :
    (mergeToolCallsStream exampleDeltas 0).map (fun c => c.function.name)
      = some "web_search"
    ∧ (mergeToolCallsCont exampleDeltas 0).map (fun c => c.function.name)
      = some "search"
    ∧ (mergeToolCallsStream exampleDeltas 0).map (fun c => c.function.name)
      ≠ (mergeToolCallsCont exampleDeltas 0).map (fun c => c.function.name) := by
  decide

theorem filterMap_guard_eq_map_filter {α β : Type} (p : α → Bool) (g : α → β) :
    ∀ l : List α,
      l.filterMap (fun a => if p a then some (g a) else none)
        = (l.filter p).map g := by
  intro l
  induction l with
  | nil => rfl
  | cons t ts ih =>
    rw [List.filterMap_cons, List.filter_cons]
    by_cases h : p t <;> simp [h, ih]

theorem mkToolResults_eq_filter_map (execTool : ToolCallState → String)
    (tcs : List ToolCallState) :
    mkToolResults execTool tcs
      = (tcs.filter (fun tc => tc.function.name == "web_search")).map
          (fun tc => toolResultMsg tc.id (execTool tc)) :=
  filterMap_guard_eq_map_filter
    (fun (tc : ToolCallState) => tc.function.name == "web_search")
    (fun (tc : ToolCallState) => toolResultMsg tc.id (execTool tc)) tcs

/-- C3: a model that requests a `web_search` tool call on every continuation
round drives the recursion to the hard cap of `MAX_TOOL_DEPTH` (100)
iterations, at which point `continueWithToolResults` stops recursing and
returns the degraded report with score 50 and verdict `UNVERIFIABLE`; the
exchange terminates from every starting depth and state. -/
theorem continueWithToolResults_depth_cap
    (jsonParse : String → Option JSValue) (oracle : Nat → ContOutcome)
    (execTool : ToolCallState → String) (sysMsg userMsg : ChatMessage)
    (halways : ∀ d, (oracle d).newToolCalls.any
      (fun tc => tc.function.name == "web_search") = true) :
    ∀ (depth : Nat) (toolCalls : List ToolCallState)
      (toolResults : List ChatMessage) (ex : Option (List ChatMessage)),
      (continueWithToolResults jsonParse oracle execTool sysMsg userMsg
        toolCalls toolResults depth ex).1 = degradedReport
      ∧ degradedReport.score = 50
      ∧ degradedReport.verdict = JSValue.vStr "UNVERIFIABLE" := by
  have key : ∀ (n depth : Nat), MAX_TOOL_DEPTH - depth ≤ n →
      ∀ (tcs : List ToolCallState) (trs : List ChatMessage)
        (ex : Option (List ChatMessage)),
        (continueWithToolResults jsonParse oracle execTool sysMsg userMsg
          tcs trs depth ex).1 = degradedReport := by
    intro n
    induction n with
    | zero =>
      intro depth hle tcs trs ex
      have hd : MAX_TOOL_DEPTH ≤ depth := by omega
      unfold continueWithToolResults
      rw [if_pos hd]
    | succ n ih =>
      intro depth hle tcs trs ex
      by_cases hd : MAX_TOOL_DEPTH ≤ depth
      · unfold continueWithToolResults
        rw [if_pos hd]
      · obtain ⟨tc, htc, hname⟩ := List.any_eq_true.mp (halways depth)
        have hname' : tc.function.name = "web_search" := by
          simpa using hname
        have hne : (oracle depth).newToolCalls.isEmpty = false := by
          cases hl : (oracle depth).newToolCalls with
          | nil => rw [hl] at htc; cases htc
          | cons a l => simp
        have hany : (oracle depth).newToolCalls.any
            (fun tc => tc.function.name != "") = true :=
          List.any_eq_true.mpr ⟨tc, htc, by simp [hname']⟩
        have hres : (mkToolResults execTool (oracle depth).newToolCalls).isEmpty
            = false := by
          have hmem : toolResultMsg tc.id (execTool tc)
              ∈ mkToolResults execTool (oracle depth).newToolCalls := by
            unfold mkToolResults
            exact List.mem_filterMap.mpr ⟨tc, htc, by simp [hname']⟩
          cases hl : mkToolResults execTool (oracle depth).newToolCalls with
          | nil => rw [hl] at hmem; cases hmem
          | cons a l => simp
        unfold continueWithToolResults
        rw [if_neg hd]
        simp only [hne, hany, hres, Bool.not_false, Bool.and_self, if_true,
          Bool.true_and, Bool.and_true]
        exact ih (depth + 1) (by omega) _ _ _
  intro depth tcs trs ex
  exact ⟨key (MAX_TOOL_DEPTH - depth) depth (Nat.le_refl _) tcs trs ex, rfl, rfl⟩

/-- Sample web_search tool call used by the continuation witnesses. -/
def webCallW : ToolCallState :=
  { id := "call_w", type := "function",
    function := { name := "web_search", arguments := "\x7b\"query\":\"q\"\x7d" } }

/-- Sample system message used by the continuation witnesses. -/
def sysMsgW : ChatMessage :=
  { role := "system", content := some "sys", tool_calls := [], toolCallId := none }

/-- Sample user message used by the continuation witnesses. -/
def userMsgW : ChatMessage :=
  { role := "user", content := some "user", tool_calls := [], toolCallId := none }

theorem continueWithToolResults_depth_cap_witness :
    (continueWithToolResults (fun _ => none)
      (fun _ => { fullContent := "", newToolCalls := [webCallW] })
      (fun _ => "result") sysMsgW userMsgW [webCallW]
      (mkToolResults (fun _ => "result") [webCallW]) 0 none).1 = degradedReport
    ∧ degradedReport.score = 50
    ∧ degradedReport.verdict = JSValue.vStr "UNVERIFIABLE" :=
  continueWithToolResults_depth_cap (fun _ => none)
    (fun _ => { fullContent := "", newToolCalls := [webCallW] })
    (fun _ => "result") sysMsgW userMsgW
    (fun _ => by simp [webCallW]) 0 [webCallW]
    (mkToolResults (fun _ => "result") [webCallW]) none

theorem contPosts_shape (jsonParse : String → Option JSValue)
    (oracle : Nat → ContOutcome) (execTool : ToolCallState → String)
    (sysMsg userMsg : ChatMessage) :
    ∀ (n depth : Nat), MAX_TOOL_DEPTH - depth ≤ n →
      ∀ (ex : Option (List ChatMessage)) (tcs : List ToolCallState),
        ∀ msgs ∈ (continueWithToolResults jsonParse oracle execTool sysMsg
            userMsg tcs (mkToolResults execTool tcs) depth ex).2,
          ∃ pre tcs2,
            msgs = pre ++ assistantToolCallMsg tcs2
              :: mkToolResults execTool tcs2 := by
  intro n
  induction n with
  | zero =>
    intro depth hle ex tcs msgs hmem
    have hd : MAX_TOOL_DEPTH ≤ depth := by omega
    unfold continueWithToolResults at hmem
    rw [if_pos hd] at hmem
    cases hmem
  | succ n ih =>
    intro depth hle ex tcs msgs hmem
    by_cases hd : MAX_TOOL_DEPTH ≤ depth
    · unfold continueWithToolResults at hmem
      rw [if_pos hd] at hmem
      cases hmem
    · cases ex with
      | some e =>
        unfold continueWithToolResults at hmem
        rw [if_neg hd] at hmem
        simp only [] at hmem
        split at hmem
        · split at hmem
          · simp only [] at hmem
            rcases List.mem_cons.mp hmem with h | h
            · exact h ▸ ⟨e, tcs, rfl⟩
            · exact ih (depth + 1) (by omega) _ _ msgs h
          · rcases List.mem_singleton.mp hmem with rfl
            exact ⟨e, tcs, rfl⟩
        · rcases List.mem_singleton.mp hmem with rfl
          exact ⟨e, tcs, rfl⟩
      | none =>
        unfold continueWithToolResults at hmem
        rw [if_neg hd] at hmem
        simp only [] at hmem
        split at hmem
        · split at hmem
          · simp only [] at hmem
            rcases List.mem_cons.mp hmem with h | h
            · exact h ▸ ⟨[sysMsg, userMsg], tcs, rfl⟩
            · exact ih (depth + 1) (by omega) _ _ msgs h
          · rcases List.mem_singleton.mp hmem with rfl
            exact ⟨[sysMsg, userMsg], tcs, rfl⟩
        · rcases List.mem_singleton.mp hmem with rfl
          exact ⟨[sysMsg, userMsg], tcs, rfl⟩

/-- C4: in every message history POSTed by a continuation round, the history
ends with the assistant message carrying the round's `tool_calls` immediately
followed by that round's tool-result messages with nothing in between, and
those tool-result messages are exactly the round's `web_search` calls in
their original order (one result per call, keyed by the call's id). -/
theorem continuation_history_ordering (jsonParse : String → Option JSValue)
    (oracle : Nat → ContOutcome) (execTool : ToolCallState → String)
    (sysMsg userMsg : ChatMessage) (toolCalls : List ToolCallState)
    (msgs : List ChatMessage)
    (hmem : msgs ∈ (continueWithToolResults jsonParse oracle execTool sysMsg
      userMsg toolCalls (mkToolResults execTool toolCalls) 0 none).2) :
    ∃ pre tcs2,
      msgs = pre ++ assistantToolCallMsg tcs2 :: mkToolResults execTool tcs2
      ∧ mkToolResults execTool tcs2
        = (tcs2.filter (fun tc => tc.function.name == "web_search")).map
            (fun tc => toolResultMsg tc.id (execTool tc)) := by
  obtain ⟨pre, tcs2, hshape⟩ := contPosts_shape jsonParse oracle execTool
    sysMsg userMsg MAX_TOOL_DEPTH 0 (by omega) none toolCalls msgs hmem
  exact ⟨pre, tcs2, hshape, mkToolResults_eq_filter_map execTool tcs2⟩

theorem continuation_history_ordering_witness :
    ∃ pre tcs2,
      [sysMsgW, userMsgW, assistantToolCallMsg [webCallW],
        toolResultMsg "call_w" "result"]
        = pre ++ assistantToolCallMsg tcs2
            :: mkToolResults (fun _ => "result") tcs2
      ∧ mkToolResults (fun _ => "result") tcs2
        = (tcs2.filter (fun tc => tc.function.name == "web_search")).map
            (fun tc => toolResultMsg tc.id ((fun _ => "result") tc)) := by
  have hmem : [sysMsgW, userMsgW, assistantToolCallMsg [webCallW],
      toolResultMsg "call_w" "result"]
      ∈ (continueWithToolResults (fun _ => none)
        (fun _ => { fullContent := "done", newToolCalls := [] })
        (fun _ => "result") sysMsgW userMsgW [webCallW]
        (mkToolResults (fun _ => "result") [webCallW]) 0 none).2 := by
    have hres : mkToolResults (fun _ => "result") [webCallW]
        = [toolResultMsg "call_w" "result"] := rfl
    unfold continueWithToolResults
    rw [hres]
    norm_num [MAX_TOOL_DEPTH]
  exact continuation_history_ordering (fun _ => none)
    (fun _ => { fullContent := "done", newToolCalls := [] })
    (fun _ => "result") sysMsgW userMsgW [webCallW] _ hmem

theorem splitCharList_ne_nil (c : Char) (l : List Char) : splitCharList c l ≠ [] := by
  cases l with
  | nil => simp [splitCharList]
  | cons a as =>
    rw [splitCharList]
    split
    · simp
    · split <;> simp

theorem splitCharList_no_sep {c : Char} :
    ∀ {l : List Char}, c ∉ l → splitCharList c l = [l] := by
  intro l
  induction l with
  | nil => intro _; rfl
  | cons a as ih =>
    intro h
    rw [List.mem_cons] at h
    push_neg at h
    obtain ⟨hca, h'⟩ := h
    have ha : (a == c) = false := by
      simp only [beq_eq_false_iff_ne]
      exact Ne.symm hca
    rw [splitCharList, if_neg (by simp [ha]), ih h']

theorem splitCharList_append {c : Char} :
    ∀ (l₁ l₂ : List Char), c ∉ l₁ →
      splitCharList c (l₁ ++ l₂)
        = (l₁ ++ (splitCharList c l₂).headI) :: (splitCharList c l₂).tail := by
  intro l₁
  induction l₁ with
  | nil =>
    intro l₂ _
    rw [List.nil_append]
    cases hs : splitCharList c l₂ with
    | nil => exact absurd hs (splitCharList_ne_nil c l₂)
    | cons g gs => simp
  | cons a as ih =>
    intro l₂ h
    rw [List.mem_cons] at h
    push_neg at h
    obtain ⟨hca, h'⟩ := h
    have ha : (a == c) = false := by
      simp only [beq_eq_false_iff_ne]
      exact Ne.symm hca
    rw [List.cons_append, splitCharList, if_neg (by simp [ha]), ih l₂ h']
    rfl

theorem isPrefixOf_eq_false_of_mem {pat l : List Char} {c : Char}
    (hc : c ∈ pat) (hl : c ∉ l) : pat.isPrefixOf l = false := by
  by_contra hne
  rw [Bool.not_eq_false] at hne
  exact hl ((List.isPrefixOf_iff_prefix.mp hne).sublist.subset hc)

theorem splitCharList_embed (v : String) (hs : '/' ∉ v.data) :
    splitCharList '/' ('/' :: 'e' :: 'm' :: 'b' :: 'e' :: 'd' :: '/' :: v.data)
      = [[], "embed".data, v.data] := by
  have h1 : ('/' :: 'e' :: 'm' :: 'b' :: 'e' :: 'd' :: '/' :: v.data)
      = '/' :: ("embed".data ++ ('/' :: v.data)) := rfl
  rw [h1, splitCharList, if_pos (show ('/' == '/') = true from rfl),
    splitCharList_append "embed".data ('/' :: v.data) (by decide),
    splitCharList, if_pos (show ('/' == '/') = true from rfl),
    splitCharList_no_sep hs]
  rfl

theorem splitCharList_vpath (v : String) (hs : '/' ∉ v.data) :
    splitCharList '/' ('/' :: 'v' :: '/' :: v.data) = [[], "v".data, v.data] := by
  have h1 : ('/' :: 'v' :: '/' :: v.data)
      = '/' :: ("v".data ++ ('/' :: v.data)) := rfl
  rw [h1, splitCharList, if_pos (show ('/' == '/') = true from rfl),
    splitCharList_append "v".data ('/' :: v.data) (by decide),
    splitCharList, if_pos (show ('/' == '/') = true from rfl),
    splitCharList_no_sep hs]
  rfl

theorem normalizeUrl_watch (v : String) (hv : v ≠ "") :
    normalizeUrl (watchUrl v) = "https://www.youtube.com/watch?v=" ++ v := by
  have hc : (strContains "www.youtube.com" "youtube.com"
      || strContains "www.youtube.com" "youtu.be") = true := by decide
  unfold normalizeUrl watchUrl
  simp [hasParam, getParam, truthyStr, hv, hc]

theorem normalizeUrl_short (v : String) (hv : v ≠ "") (hs : '/' ∉ v.data) :
    normalizeUrl (shortUrl v) = "https://www.youtube.com/watch?v=" ++ v := by
  have hc : (strContains "youtu.be" "youtube.com"
      || strContains "youtu.be" "youtu.be") = true := by decide
  have hdata : ("/" ++ v).data = '/' :: v.data := by
    rw [String.data_append]
    rfl
  have hstart1 : jsStartsWith ("/" ++ v) "/embed/" = false := by
    unfold jsStartsWith
    rw [hdata]
    show (('/' == '/') && "embed/".data.isPrefixOf v.data) = false
    rw [isPrefixOf_eq_false_of_mem (show '/' ∈ "embed/".data by decide) hs]
    rfl
  have hstart2 : jsStartsWith ("/" ++ v) "/v/" = false := by
    unfold jsStartsWith
    rw [hdata]
    show (('/' == '/') && "v/".data.isPrefixOf v.data) = false
    rw [isPrefixOf_eq_false_of_mem (show '/' ∈ "v/".data by decide) hs]
    rfl
  have hslice : jsSliceOne ("/" ++ v) = v := by
    unfold jsSliceOne
    rw [hdata]
    rfl
  unfold normalizeUrl shortUrl
  simp [hasParam, truthyStr, hv, hc, hstart1, hstart2, hslice]

theorem normalizeUrl_embed (v : String) (hv : v ≠ "") (hs : '/' ∉ v.data) :
    normalizeUrl (embedUrl v) = "https://www.youtube.com/watch?v=" ++ v := by
  have hc : (strContains "www.youtube.com" "youtube.com"
      || strContains "www.youtube.com" "youtu.be") = true := by decide
  have hstart : jsStartsWith ("/embed/" ++ v) "/embed/" = true := by
    unfold jsStartsWith
    rw [String.data_append]
    exact List.isPrefixOf_iff_prefix.mpr (List.prefix_append _ _)
  have hmk : String.mk v.data = v := rfl
  unfold normalizeUrl embedUrl
  simp [hasParam, truthyStr, jsSplit, hc, hstart, splitCharList_embed v hs, hmk, hv]

theorem normalizeUrl_vpath (v : String) (hv : v ≠ "") (hs : '/' ∉ v.data) :
    normalizeUrl (vPathUrl v) = "https://www.youtube.com/watch?v=" ++ v := by
  have hc : (strContains "www.youtube.com" "youtube.com"
      || strContains "www.youtube.com" "youtu.be") = true := by decide
  have hstart1 : jsStartsWith ("/v/" ++ v) "/embed/" = false := by
    unfold jsStartsWith
    rw [String.data_append]
    show (('/' == '/') && "embed/".data.isPrefixOf ("v".data ++ ('/' :: v.data))) = false
    rfl
  have hstart2 : jsStartsWith ("/v/" ++ v) "/v/" = true := by
    unfold jsStartsWith
    rw [String.data_append]
    exact List.isPrefixOf_iff_prefix.mpr (List.prefix_append _ _)
  have hmk : String.mk v.data = v := rfl
  unfold normalizeUrl vPathUrl
  simp [hasParam, truthyStr, jsSplit, hc, hstart1, hstart2,
    splitCharList_vpath v hs, hmk, hv]

/-- C9: URL normalization is canonical across the YouTube URL variants — for
every nonempty, slash-free video id the `watch?v=`, `youtu.be/`, `/embed/`,
and `/v/` forms all normalize to the same canonical watch URL, so a history
lookup with any variant finds an item saved under any other (any two URLs
with equal normalizations match); for non-YouTube hosts, normalization keeps
only origin plus pathname, stripping query parameters and fragment. -/
theorem normalizeUrl_canonical :
    (∀ (v : String), v ≠ "" → '/' ∉ v.data →
      normalizeUrl (watchUrl v) = "https://www.youtube.com/watch?v=" ++ v
      ∧ normalizeUrl (shortUrl v) = "https://www.youtube.com/watch?v=" ++ v
      ∧ normalizeUrl (embedUrl v) = "https://www.youtube.com/watch?v=" ++ v
      ∧ normalizeUrl (vPathUrl v) = "https://www.youtube.com/watch?v=" ++ v)
    ∧ (∀ u : URLParts, strContains u.hostname "youtube.com" = false →
        strContains u.hostname "youtu.be" = false →
        normalizeUrl u = u.origin ++ u.pathname)
    ∧ (∀ (history : List HistoryEntry) (item : HistoryEntry)
        (itemUrl target : URLParts),
        item ∈ history → item.url = some itemUrl →
        normalizeUrl itemUrl = normalizeUrl target →
        (getUrlResult history (some target)).isSome = true) := by
  refine ⟨?_, ?_, ?_⟩
  · intro v hv hs
    exact ⟨normalizeUrl_watch v hv, normalizeUrl_short v hv hs,
      normalizeUrl_embed v hv hs, normalizeUrl_vpath v hv hs⟩
  · intro u hy1 hy2
    unfold normalizeUrl
    rw [if_neg (by simp [hy1, hy2])]
  · intro hist item itemUrl target hmem hurl hnorm
    unfold getUrlResult
    simp only [Option.map_some']
    have hfind : (hist.find? (fun it =>
        match it.url with
        | none => false
        | some p => normalizeUrl p == normalizeUrl target)).isSome = true := by
      rw [List.find?_isSome]
      refine ⟨item, hmem, ?_⟩
      rw [hurl]
      simp [hnorm]
    obtain ⟨m, hm⟩ := Option.isSome_iff_exists.mp hfind
    rw [hm]
    rfl

/-- Sample history entry saved under the youtu.be short URL. -/
def historyEntryW : HistoryEntry :=
  { url := some (shortUrl "dQw4w9WgXcQ"), score := 80,
    report := .vStr "report", content := "content", promptText := none,
    isYouTube := true, source := "web", timestamp := 0 }

/-- Sample non-YouTube URL with query parameters. -/
def plainUrlW : URLParts :=
  { hostname := "example.com", pathname := "/page",
    searchParams := [("q", "1")], origin := "https://example.com" }

theorem normalizeUrl_canonical_witness :
    normalizeUrl (watchUrl "dQw4w9WgXcQ")
      = "https://www.youtube.com/watch?v=" ++ "dQw4w9WgXcQ"
    ∧ normalizeUrl (shortUrl "dQw4w9WgXcQ")
      = "https://www.youtube.com/watch?v=" ++ "dQw4w9WgXcQ"
    ∧ normalizeUrl (embedUrl "dQw4w9WgXcQ")
      = "https://www.youtube.com/watch?v=" ++ "dQw4w9WgXcQ"
    ∧ normalizeUrl (vPathUrl "dQw4w9WgXcQ")
      = "https://www.youtube.com/watch?v=" ++ "dQw4w9WgXcQ"
    ∧ normalizeUrl plainUrlW = plainUrlW.origin ++ plainUrlW.pathname
    ∧ (getUrlResult [historyEntryW] (some (embedUrl "dQw4w9WgXcQ"))).isSome
        = true := by
  obtain ⟨h1, h2, h3⟩ := normalizeUrl_canonical
  obtain ⟨w1, w2, w3, w4⟩ := h1 "dQw4w9WgXcQ" (by decide) (by decide)
  refine ⟨w1, w2, w3, w4, ?_, ?_⟩
  · exact h2 plainUrlW (by decide) (by decide)
  · exact h3 [historyEntryW] historyEntryW (shortUrl "dQw4w9WgXcQ")
      (embedUrl "dQw4w9WgXcQ") (List.mem_singleton.mpr rfl) rfl (by decide)

end TruthLens
